import Mathlib

/-!
Shallow embedding of the indicator engine of `pyrobot/indicators.py`
(the `Indicators` class): a symbol-partitioned price table, the four
indicator routines `change_in_price`, `rsi`, `sma`, `ema`, the registry
of last-used call arguments kept in `_current_indicators`, and the
`refresh` replay loop.

Numeric values are exact rationals.  Columns computed by pandas may hold
the special float values NaN and signed infinity (the first `diff` entry
of a group is NaN, and `rsi` divides one column by another without a
zero guard), so column cells live in `RVal`, rationals extended with
`inf`, `ninf` and `nan`, with the IEEE-style case arithmetic the
pipeline can actually reach.  Rounding of binary floats is not modelled;
all claims under study are about exact structural facts (which branch is
taken, whether a cell is NaN, whether two columns are equal as defined),
not about rounding error.
-/

set_option autoImplicit false

namespace PyRobot

/-- Cell value of a derived column: a finite rational or one of the IEEE
special values (positive infinity, negative infinity, NaN).  `nan` also
represents a cell that pandas would display as missing/undefined. -/
inductive RVal
  | fin (q : ℚ)
  | inf
  | ninf
  | nan
deriving DecidableEq, Repr

/-- IEEE-style division on cell values, mirroring what numpy and pandas do
when one column is divided by another: a nonzero finite value divided by
zero gives a signed infinity, zero divided by zero gives NaN, anything
involving NaN gives NaN. -/
def rdiv : RVal → RVal → RVal
  | .nan, _ => .nan
  | _, .nan => .nan
  | .fin a, .fin b =>
      if b = 0 then (if a = 0 then .nan else if 0 < a then .inf else .ninf)
      else .fin (a / b)
  | .fin _, .inf => .fin 0
  | .fin _, .ninf => .fin 0
  | .inf, .fin b => if 0 ≤ b then .inf else .ninf
  | .ninf, .fin b => if 0 ≤ b then .ninf else .inf
  | .inf, _ => .nan
  | .ninf, _ => .nan

/-- Add one to a cell value (used for `1 + relative_strength`). -/
def oneAdd : RVal → RVal
  | .fin q => .fin (1 + q)
  | .inf => .inf
  | .ninf => .ninf
  | .nan => .nan

/-- Subtract a cell value from one hundred (used for `100 - 100/(1+x)`). -/
def hundredSub : RVal → RVal
  | .fin q => .fin (100 - q)
  | .inf => .ninf
  | .ninf => .inf
  | .nan => .nan

/-- Port of `np.where(x >= 0, x, 0)` applied to one cell of the
`change_in_price` column (line 153 of indicators.py).  A NaN comparison
is false, so a NaN change yields 0. -/
def whereUp : RVal → RVal
  | .fin c => if 0 ≤ c then .fin c else .fin 0
  | .inf => .inf
  | .ninf => .fin 0
  | .nan => .fin 0

/-- Port of `np.where(x < 0, x.abs(), 0)` applied to one cell of the
`change_in_price` column (line 159 of indicators.py). -/
def whereDown : RVal → RVal
  | .fin c => if c < 0 then .fin (-c) else .fin 0
  | .inf => .fin 0
  | .ninf => .inf
  | .nan => .fin 0

/-- Streaming loop of the pandas `Series.ewm(span=s).mean()` call with the
default `adjust=True`: it keeps a weighted numerator `num` and a weight
total `den`, decays both by `1 - a` at each step (where `a = 2/(s+1)`),
adds the new observation when it is finite, and emits `num/den`.  A
non-finite observation is skipped the way pandas skips NaN (weights
decay, no new term); the output is NaN while no observation has been
absorbed. -/
def ewmGo (a : ℚ) (num den : ℚ) : List RVal → List RVal
  | [] => []
  | .fin x :: rest =>
      .fin ((x + (1 - a) * num) / (1 + (1 - a) * den)) ::
        ewmGo a (x + (1 - a) * num) (1 + (1 - a) * den) rest
  | _ :: rest =>
      (if (1 - a) * den = 0 then RVal.nan
       else .fin (((1 - a) * num) / ((1 - a) * den))) ::
        ewmGo a ((1 - a) * num) ((1 - a) * den) rest

/-- Pandas `ewm(span=s).mean()` with `adjust=True`, smoothing factor `a`. -/
def ewm (a : ℚ) (xs : List RVal) : List RVal := ewmGo a 0 0 xs

/-- Pandas `Series.diff()` on one symbol group: first cell NaN, then
consecutive differences. -/
def diffList : List ℚ → List RVal
  | [] => []
  | x :: rest => .nan :: List.zipWith (fun p c => RVal.fin (c - p)) (x :: rest) rest

/-- Pandas `Series.rolling(window=w).mean()` on one symbol group
(`min_periods` defaults to the window): positions with fewer than `w`
observations so far, and every position when `w = 0`, are NaN. -/
def rollingMean (w : ℕ) (xs : List ℚ) : List RVal :=
  (List.range xs.length).map (fun i =>
    if w ≠ 0 ∧ w ≤ i + 1 then .fin ((((xs.drop (i + 1 - w)).take w).sum) / (w : ℚ))
    else .nan)

/-- One row of the price table: the key and input columns that the
indicator routines read (`symbol`, timestamp, `close`) together with
every derived column any routine writes.  A derived cell is `nan` until
its column has been written; the table-level `cols` list records which
derived columns pandas would consider present. -/
structure Row where
  symbol : String
  ts : ℕ
  close : ℚ
  change : RVal
  upDay : RVal
  downDay : RVal
  ewmaUp : RVal
  ewmaDown : RVal
  sma : RVal
  ema : RVal
  rsi : RVal
deriving DecidableEq, Repr

/-- An input price row supplied by the data-retrieval collaborator. -/
structure PriceIn where
  symbol : String
  ts : ℕ
  close : ℚ
deriving DecidableEq, Repr

/-- Build a fresh table row from an input row; no derived column cell. -/
def mkRow (p : PriceIn) : Row :=
  ⟨p.symbol, p.ts, p.close, .nan, .nan, .nan, .nan, .nan, .nan, .nan, .nan⟩

def setChange (r : Row) (v : RVal) : Row := { r with change := v }
def setUpDay (r : Row) (v : RVal) : Row := { r with upDay := v }
def setDownDay (r : Row) (v : RVal) : Row := { r with downDay := v }
def setEwmaUp (r : Row) (v : RVal) : Row := { r with ewmaUp := v }
def setEwmaDown (r : Row) (v : RVal) : Row := { r with ewmaDown := v }
def setSma (r : Row) (v : RVal) : Row := { r with sma := v }
def setEma (r : Row) (v : RVal) : Row := { r with ema := v }
def setRsi (r : Row) (v : RVal) : Row := { r with rsi := v }

/-- The price table: rows in chronological order within each symbol, plus
the list of derived columns currently present. -/
structure Table where
  rows : List Row
  cols : List String
deriving DecidableEq, Repr

/-- The stored last-used arguments of one indicator, the embedding of one
entry of `_current_indicators` (the `func` reference is determined by the
entry name, so the record is the tagged argument bundle). -/
inductive Args
  | changeArgs
  | rsiArgs (period : Int) (method : String)
  | smaArgs (period : Int)
  | emaArgs (period : Int) (alpha : ℚ)
deriving DecidableEq, Repr

/-- The dictionary key under which each indicator registers itself. -/
def argsName : Args → String
  | .changeArgs => "change_in_price"
  | .rsiArgs _ _ => "rsi"
  | .smaArgs _ => "sma"
  | .emaArgs _ _ => "ema"

/-- The error the underlying library raises on a bad window or span.  The
repository itself raises nothing and defines no exception type. -/
inductive Err
  | valueError
deriving DecidableEq, Repr

/-- Full engine state: the table, the registry `_current_indicators`
(insertion-ordered, as a Python dict is), and a ghost log recording, in
order, the name of every registry write performed so far.  The log models
the observable sequence of registration events and is read by no
operation. -/
structure State where
  table : Table
  registry : List Args
  log : List String
deriving DecidableEq, Repr

/-- Python dict assignment `d[name] = record`: an existing name keeps its
original position and gets the new record, a new name is appended. -/
def insertOrUpdate (r : List Args) (a : Args) : List Args :=
  if argsName a ∈ r.map argsName then
    r.map (fun b => if argsName b = argsName a then a else b)
  else r ++ [a]

/-- The self-registration every indicator routine performs first:
`self._current_indicators[name] = record`, logged. -/
def registerArgs (a : Args) (st : State) : State :=
  { st with registry := insertOrUpdate st.registry a,
            log := st.log ++ [argsName a] }

/-- Record a derived column as present (pandas column assignment adds the
column at the end if it is new, else keeps its place). -/
def addCol (n : String) (cols : List String) : List String :=
  if n ∈ cols then cols else cols ++ [n]

/-- Distribute per-symbol output sequences back onto the rows: each row
receives the next unconsumed value of its symbol's output list.  This is
how a pandas groupby-transform aligns each group result with the
original row positions. -/
def distribute (set : Row → RVal → Row) (outs : String → List RVal) :
    List Row → List Row
  | [] => []
  | r :: rest =>
      set r ((outs r.symbol).headD .nan) ::
        distribute set (fun s => if s = r.symbol then (outs s).tail else outs s) rest

/-- Embedding of `frame.groupby('symbol')[colIn].transform(f)` followed by
assignment into a column: for every symbol independently, `f` is applied
to the chronologically ordered sequence of that symbol's `proj` values,
and the aligned results are written back through `set`. -/
def transform {β : Type} (proj : Row → β) (set : Row → RVal → Row)
    (f : List β → List RVal) (rows : List Row) : List Row :=
  distribute set (fun s => f ((rows.filter (fun r => r.symbol == s)).map proj)) rows

namespace Indicators

/-- Port of `Indicators.change_in_price` (indicators.py lines 83-104):
register, then write the `change_in_price` column as the per-symbol
`diff()` of `close`. -/
def change_in_price (st : State) : State × Option Err :=
  let st1 := registerArgs .changeArgs st
  ({ st1 with table := ⟨transform (fun r => r.close) setChange diffList st1.table.rows,
                        addCol "change_in_price" st1.table.cols⟩ }, none)

/-- Port of `Indicators.sma` (indicators.py lines 179-218): register, then
write the `sma` column as the per-symbol rolling mean of `close`.  The
routine performs no validation of its own; a negative window makes the
pandas `rolling` call raise `ValueError` before any column is written. -/
def sma (period : Int) (st : State) : State × Option Err :=
  let st1 := registerArgs (.smaArgs period) st
  if period < 0 then (st1, some Err.valueError)
  else
    ({ st1 with table := ⟨transform (fun r => r.close) setSma
                            (rollingMean period.toNat) st1.table.rows,
                          addCol "sma" st1.table.cols⟩ }, none)

/-- Port of `Indicators.ema` (indicators.py lines 220-259): register, then
write the `ema` column as the per-symbol `ewm(span=period).mean()` of
`close`.  The `alpha` argument is stored but never read.  The pandas
`ewm` call raises `ValueError` when the span is below one, before any
column is written. -/
def ema (period : Int) (alpha : ℚ) (st : State) : State × Option Err :=
  let st1 := registerArgs (.emaArgs period alpha) st
  if period < 1 then (st1, some Err.valueError)
  else
    ({ st1 with table := ⟨transform (fun r => r.close) setEma
                            (fun xs => ewm (2 / ((period : ℚ) + 1)) (xs.map RVal.fin))
                            st1.table.rows,
                          addCol "ema" st1.table.cols⟩ }, none)

/-- The expression `100 - (100 / (1 + v))` on one cell, with IEEE special
values (indicators.py lines 169 and 172). -/
def rsiFormula (v : RVal) : RVal := hundredSub (rdiv (.fin 100) (oneAdd v))

/-- Port of line 172, `np.where(relative_strength_index == 0, 100,
100 - (100 / (1 + relative_strength_index)))`: the already-transformed
index is compared with zero and the transform is applied a second time
(NaN compares unequal to zero). -/
def rsiWhere (rs : RVal) : RVal :=
  if rsiFormula rs = RVal.fin 0 then RVal.fin 100 else rsiFormula (rsiFormula rs)

/-- The labels dropped at the end of `rsi` (indicators.py line 175). -/
def dropLabels : List String :=
  ["ewma_up", "ewma_down", "down_day", "up_day", "change_in_price"]

/-- Lines 150-159 of indicators.py: write the `up_day` and `down_day`
columns from `change_in_price` by the two grouped `np.where` transforms. -/
def upDownRows (rows : List Row) : List Row :=
  transform (fun r => r.change) setDownDay (List.map whereDown)
    (transform (fun r => r.change) setUpDay (List.map whereUp) rows)

/-- Lines 162-163 of indicators.py: write the `ewma_up` and `ewma_down`
columns from `up_day` and `down_day` by the grouped span EWM. -/
def ewmaRows (a : ℚ) (rows : List Row) : List Row :=
  transform (fun r => r.downDay) setEwmaDown (ewm a)
    (transform (fun r => r.upDay) setEwmaUp (ewm a) rows)

/-- Lines 166-172 of indicators.py: the whole-column element-wise relative
strength division followed by the index formula and the second `np.where`
transform, written into the `rsi` column. -/
def rsiCells (rows : List Row) : List Row :=
  rows.map (fun r => setRsi r (rsiWhere (rdiv r.ewmaUp r.ewmaDown)))

/-- Clear the cells of every column that line 175 drops. -/
def dropHelperCells (r : Row) : Row :=
  { r with change := .nan, upDay := .nan, downDay := .nan,
           ewmaUp := .nan, ewmaDown := .nan }

/-- Port of `Indicators.rsi` (indicators.py lines 106-177): register;
compute `change_in_price` when that column is absent; write the
`up_day` and `down_day` columns; smooth both with `ewm(span=period)`
(the pandas call raises `ValueError` for a span below one, after the
up and down columns are already written); divide to get the relative
strength, apply the index formula, and apply line 172's second
transform; finally drop the five helper columns, `change_in_price`
among them. -/
def rsi (period : Int) (method : String) (st : State) : State × Option Err :=
  let st1 := registerArgs (.rsiArgs period method) st
  let st2 := if "change_in_price" ∈ st1.table.cols then st1 else (change_in_price st1).1
  let rows4 := upDownRows st2.table.rows
  let cols4 := addCol "down_day" (addCol "up_day" st2.table.cols)
  if period < 1 then ({ st2 with table := ⟨rows4, cols4⟩ }, some Err.valueError)
  else
    let rows7 := rsiCells (ewmaRows (2 / ((period : ℚ) + 1)) rows4)
    let cols7 := addCol "rsi" (addCol "ewma_down" (addCol "ewma_up" cols4))
    ({ st2 with table := ⟨rows7.map dropHelperCells,
                          cols7.filter (fun c => decide (c ∉ dropLabels))⟩ }, none)

/-- Replay one stored registry record, `record.func(**record.args)`. -/
def runRecord (a : Args) (st : State) : State × Option Err :=
  match a with
  | .changeArgs => change_in_price st
  | .rsiArgs p m => rsi p m st
  | .smaArgs p => sma p st
  | .emaArgs p al => ema p al st

/-- Replay a snapshot of registry records in order, stopping at the first
raised error (the Python loop propagates the exception, keeping the
in-place mutations made so far). -/
def refreshGo : List Args → State → State × Option Err
  | [], st => (st, none)
  | a :: rest, st =>
      match runRecord a st with
      | (st1, none) => refreshGo rest st1
      | (st1, some e) => (st1, some e)

/-- Port of `Indicators.refresh` (indicators.py lines 261-277): replay
every registered indicator with its stored arguments, in registration
order. -/
def refresh (st : State) : State × Option Err := refreshGo st.registry st

end Indicators

/-- Append newly arrived price rows to the table (`StockFrame` growth
between indicator runs); existing derived columns are NaN on the new
rows, as pandas reindexing leaves them. -/
def appendRows (ps : List PriceIn) (st : State) : State :=
  { st with table := ⟨st.table.rows ++ ps.map mkRow, st.table.cols⟩ }

/-- Initial engine state over historical data: no derived column, empty
registry, empty log. -/
def mkState (ps : List PriceIn) : State := ⟨⟨ps.map mkRow, []⟩, [], []⟩

/-- Write an output sequence onto a row list position by position; past the
end of the sequence the cell is NaN.  `distribute` restricted to one
symbol group takes this shape. -/
def consume (set : Row → RVal → Row) : List RVal → List Row → List Row
  | _, [] => []
  | ys, r :: rest => set r (ys.headD .nan) :: consume set ys.tail rest

/-- Dictionary lookup by indicator name in the registry. -/
def lookupArgs (n : String) (r : List Args) : Option Args :=
  r.find? (fun b => argsName b == n)

/-- Registry records whose replay registers exactly its own name and
raises nothing: `change_in_price` always, `sma` with a non-negative
period, `ema` with a period of at least one.  An `rsi` record may in
addition re-register `change_in_price`. -/
def simpleRecord : Args → Prop
  | .changeArgs => True
  | .smaArgs p => 0 ≤ p
  | .emaArgs p _ => 1 ≤ p
  | .rsiArgs _ _ => False

/-- Registry states the engine can actually reach: names are unique (a
Python dict) and an `rsi` record is always accompanied by a
`change_in_price` record, since `rsi` registers `change_in_price`
whenever it computes it. -/
def reachableRegistry (r : List Args) : Prop :=
  (r.map argsName).Nodup ∧
    ("rsi" ∈ r.map argsName → "change_in_price" ∈ r.map argsName)

/-- Weighted numerator of the adjusted exponentially weighted mean over a
chronological prefix: the sum of `(1-a)^k * x` where `k` counts how many
newer observations follow `x` in the prefix. -/
def wSumNum (a : ℚ) : List ℚ → ℚ
  | [] => 0
  | x :: l => wSumNum a l + (1 - a) ^ l.length * x

/-- Weight total of the adjusted exponentially weighted mean over `n`
observations: the sum of `(1-a)^k` for `k` below `n`. -/
def wSumDen (a : ℚ) : ℕ → ℚ
  | 0 => 0
  | n + 1 => wSumDen a n + (1 - a) ^ n

/-- Closed form of the adjusted exponentially weighted mean of a sequence:
position `i` holds the weighted average of the first `i+1` observations,
newest weighted most. -/
def emaAdjusted (a : ℚ) (xs : List ℚ) : List RVal :=
  (List.range xs.length).map (fun i =>
    RVal.fin (wSumNum a (xs.take (i + 1)) / wSumDen a (i + 1)))

/-- Tail of the recurrence-form exponential moving average. -/
def emaRecGo (a prev : ℚ) : List ℚ → List ℚ
  | [] => []
  | x :: rest => (a * x + (1 - a) * prev) :: emaRecGo a (a * x + (1 - a) * prev) rest

/-- Modelled from the spec: the exponential-moving-average recurrence over
a symbol group in chronological order, first value seeded from the first
close price, with smoothing factor `a` (the spec derives `a` as
2/(period+1) when alpha is unset or zero). -/
def emaRecurrence (a : ℚ) : List ℚ → List ℚ
  | [] => []
  | x :: rest => x :: emaRecGo a x rest

/-- Modelled from the spec: the single, standard RSI formula over one
symbol group. Changes are split into up-moves and down-moves, each is
smoothed by the span exponential moving average, relative strength is
avgUp/avgDown, and RSI is 100 - 100/(1+RS), with the spec edge case that
a zero avgDown yields 100 directly (no division by zero). -/
def rsiSpecStandard (period : Int) (closes : List ℚ) : List RVal :=
  let a := 2 / ((period : ℚ) + 1)
  let changes := diffList closes
  let avgUp := ewm a (changes.map whereUp)
  let avgDown := ewm a (changes.map whereDown)
  List.zipWith
    (fun u d =>
      if d = RVal.fin 0 then RVal.fin 100
      else hundredSub (rdiv (RVal.fin 100) (oneAdd (rdiv u d))))
    avgUp avgDown

/-! Constructor disequalities of `RVal`, for evaluating branch conditions. -/

@[simp] theorem nan_ne_fin (q : ℚ) : RVal.nan = RVal.fin q ↔ False :=
  Iff.intro (fun h => RVal.noConfusion h) False.elim

@[simp] theorem inf_ne_fin (q : ℚ) : RVal.inf = RVal.fin q ↔ False :=
  Iff.intro (fun h => RVal.noConfusion h) False.elim

@[simp] theorem ninf_ne_fin (q : ℚ) : RVal.ninf = RVal.fin q ↔ False :=
  Iff.intro (fun h => RVal.noConfusion h) False.elim

@[simp] theorem fin_ne_nan (q : ℚ) : RVal.fin q = RVal.nan ↔ False :=
  Iff.intro (fun h => RVal.noConfusion h) False.elim

@[simp] theorem inf_ne_nan : RVal.inf = RVal.nan ↔ False :=
  Iff.intro (fun h => RVal.noConfusion h) False.elim

@[simp] theorem ninf_ne_nan : RVal.ninf = RVal.nan ↔ False :=
  Iff.intro (fun h => RVal.noConfusion h) False.elim

/-! Generic facts about grouped transforms. -/

theorem distribute_map_eq {γ : Type} (set : Row → RVal → Row) (g : Row → γ)
    (hg : ∀ r v, g (set r v) = g r) (outs : String → List RVal) (rows : List Row) :
    (distribute set outs rows).map g = rows.map g := by
  induction rows generalizing outs with
  | nil => rfl
  | cons r rest ih => simp [distribute, hg, ih]

theorem distribute_filter (set : Row → RVal → Row)
    (hs : ∀ r v, (set r v).symbol = r.symbol) (s : String)
    (outs : String → List RVal) (rows : List Row) :
    (distribute set outs rows).filter (fun r => r.symbol == s)
      = consume set (outs s) (rows.filter (fun r => r.symbol == s)) := by
  induction rows generalizing outs with
  | nil => rfl
  | cons r rest ih =>
      by_cases h : r.symbol = s
      · subst h
        have h1 : (distribute set outs (r :: rest)).filter (fun x => x.symbol == r.symbol)
            = set r ((outs r.symbol).headD .nan) ::
              (distribute set (fun t => if t = r.symbol then (outs t).tail else outs t)
                rest).filter (fun x => x.symbol == r.symbol) := by
          simp [distribute, List.filter_cons, hs]
        rw [h1, ih]
        simp [List.filter_cons, consume]
      · simp only [distribute, List.filter_cons, hs, h]
        rw [ih]
        simp only [beq_iff_eq, h, if_false]
        rw [if_neg (fun hc => h hc.symm)]

theorem distribute_values_eq (set : Row → RVal → Row) (get : Row → RVal)
    (hget : ∀ r v, get (set r v) = v) (outs : String → List RVal)
    (rows1 rows2 : List Row)
    (h : rows1.map (fun r => r.symbol) = rows2.map (fun r => r.symbol)) :
    (distribute set outs rows1).map get = (distribute set outs rows2).map get := by
  induction rows1 generalizing outs rows2 with
  | nil => cases rows2 with
      | nil => rfl
      | cons b bs => exact absurd h (by simp)
  | cons r rest ih =>
      cases rows2 with
      | nil => exact absurd h (by simp)
      | cons b bs =>
          simp only [List.map_cons, List.cons.injEq] at h
          simp [distribute, hget, h.1, ih _ bs h.2]

theorem distribute_nan (set : Row → RVal → Row) (get : Row → RVal)
    (hget : ∀ r v, get (set r v) = v) (outs : String → List RVal)
    (rows : List Row) (h : ∀ s v, v ∈ outs s → v = RVal.nan) :
    (distribute set outs rows).map get = rows.map (fun _ => RVal.nan) := by
  induction rows generalizing outs with
  | nil => rfl
  | cons r rest ih =>
      have hhead : (outs r.symbol).head?.getD RVal.nan = RVal.nan := by
        cases houts : outs r.symbol with
        | nil => rfl
        | cons y t =>
            have hy : y = RVal.nan :=
              h r.symbol y (by rw [houts]; exact List.mem_cons_self y t)
            simp [houts, hy]
      have htail : ∀ s v,
          v ∈ (fun t => if t = r.symbol then (outs t).tail else outs t) s → v = RVal.nan := by
        intro s v hv
        by_cases hs : s = r.symbol
        · exact h s v (List.mem_of_mem_tail (by simpa [hs] using hv))
        · exact h s v (by simpa [hs] using hv)
      simp [distribute, hget, hhead, ih _ htail]

theorem map_get_consume (set : Row → RVal → Row) (get : Row → RVal)
    (hget : ∀ r v, get (set r v) = v) (ys : List RVal) (rs : List Row)
    (h : ys.length = rs.length) : (consume set ys rs).map get = ys := by
  induction rs generalizing ys with
  | nil => cases ys with
      | nil => rfl
      | cons y t => exact absurd h (by simp)
  | cons r rest ih =>
      cases ys with
      | nil => exact absurd h (by simp)
      | cons y t =>
          simp only [List.length_cons, Nat.succ.injEq] at h
          simp [consume, hget, ih t h]

theorem filter_map_comm (g : Row → Row) (hg : ∀ r, (g r).symbol = r.symbol)
    (s : String) (rows : List Row) :
    (rows.map g).filter (fun r => r.symbol == s)
      = (rows.filter (fun r => r.symbol == s)).map g := by
  induction rows with
  | nil => rfl
  | cons r rest ih =>
      by_cases h : r.symbol = s
      · simp [List.filter_cons, hg, h, ih]
      · simp [List.filter_cons, hg, h, ih]

theorem filter_map_of_pair_eq {γ : Type} (g : Row → γ) (s : String)
    (rows1 rows2 : List Row)
    (h : rows1.map (fun r => (r.symbol, g r)) = rows2.map (fun r => (r.symbol, g r))) :
    (rows1.filter (fun r => r.symbol == s)).map g
      = (rows2.filter (fun r => r.symbol == s)).map g := by
  induction rows1 generalizing rows2 with
  | nil => cases rows2 with
      | nil => rfl
      | cons b bs => exact absurd h (by simp)
  | cons r rest ih =>
      cases rows2 with
      | nil => exact absurd h (by simp)
      | cons b bs =>
          simp only [List.map_cons, List.cons.injEq, Prod.mk.injEq] at h
          by_cases hs : r.symbol = s
          · simp [List.filter_cons, hs, h.1.1 ▸ hs, h.1.2, ih bs h.2]
          · simp [List.filter_cons, hs, h.1.1 ▸ hs, ih bs h.2]

theorem transform_filter_eq {β : Type} (proj : Row → β) (set : Row → RVal → Row)
    (hs : ∀ r v, (set r v).symbol = r.symbol) (f : List β → List RVal)
    (s : String) (rows1 rows2 : List Row)
    (h : rows1.filter (fun r => r.symbol == s) = rows2.filter (fun r => r.symbol == s)) :
    (transform proj set f rows1).filter (fun r => r.symbol == s)
      = (transform proj set f rows2).filter (fun r => r.symbol == s) := by
  rw [transform, transform, distribute_filter set hs s, distribute_filter set hs s, h]

theorem map_symbol_of_pair_eq {γ : Type} (g : Row → γ) (rows1 rows2 : List Row)
    (h : rows1.map (fun r => (r.symbol, g r)) = rows2.map (fun r => (r.symbol, g r))) :
    rows1.map (fun r => r.symbol) = rows2.map (fun r => r.symbol) := by
  have := congrArg (List.map Prod.fst) h
  simpa [List.map_map, Function.comp] using this

theorem transform_close_col_eq (set : Row → RVal → Row) (get : Row → RVal)
    (hget : ∀ r v, get (set r v) = v) (f : List ℚ → List RVal)
    (rows1 rows2 : List Row)
    (h : rows1.map (fun r => (r.symbol, r.close)) = rows2.map (fun r => (r.symbol, r.close))) :
    (transform (fun r => r.close) set f rows1).map get
      = (transform (fun r => r.close) set f rows2).map get := by
  rw [transform, transform]
  have houts : (fun s => f ((rows1.filter (fun r => r.symbol == s)).map (fun r => r.close)))
      = (fun s => f ((rows2.filter (fun r => r.symbol == s)).map (fun r => r.close))) := by
    funext s
    exact congrArg f (filter_map_of_pair_eq (fun r => r.close) s rows1 rows2 h)
  rw [houts]
  exact distribute_values_eq set get hget _ rows1 rows2 (map_symbol_of_pair_eq _ rows1 rows2 h)

theorem ewmGo_length (a : ℚ) (num den : ℚ) (xs : List RVal) :
    (ewmGo a num den xs).length = xs.length := by
  induction xs generalizing num den with
  | nil => rfl
  | cons x rest ih => cases x <;> simp [ewmGo, ih]

/-! Facts about the registry dictionary. -/

theorem insertOrUpdate_names (r : List Args) (a : Args)
    (h : argsName a ∈ r.map argsName) :
    (insertOrUpdate r a).map argsName = r.map argsName := by
  simp only [insertOrUpdate, if_pos h, List.map_map]
  apply List.map_congr_left
  intro b _
  by_cases hb : argsName b = argsName a
  · simp [Function.comp, hb]
  · simp [Function.comp, hb]

theorem insertOrUpdate_self (r : List Args) (a : Args) (hmem : a ∈ r)
    (hnd : (r.map argsName).Nodup) : insertOrUpdate r a = r := by
  have hinj := List.inj_on_of_nodup_map hnd
  have hcond : argsName a ∈ r.map argsName := List.mem_map_of_mem _ hmem
  simp only [insertOrUpdate, if_pos hcond]
  have : ∀ b ∈ r, (if argsName b = argsName a then a else b) = b := by
    intro b hb
    by_cases h : argsName b = argsName a
    · rw [if_pos h]
      exact (hinj hb hmem h).symm
    · rw [if_neg h]
  calc r.map (fun b => if argsName b = argsName a then a else b)
      = r.map id := List.map_congr_left this
    _ = r := List.map_id r

theorem changeArgs_of_name_mem (r : List Args)
    (h : "change_in_price" ∈ r.map argsName) : Args.changeArgs ∈ r := by
  induction r with
  | nil => simp at h
  | cons a rest ih =>
      rw [List.map_cons, List.mem_cons] at h
      rcases h with h1 | h1
      · cases a with
        | changeArgs => exact List.mem_cons_self _ _
        | rsiArgs p m => exact absurd h1 (by simp [argsName])
        | smaArgs p => exact absurd h1 (by simp [argsName])
        | emaArgs p al => exact absurd h1 (by simp [argsName])
      · exact List.mem_cons_of_mem _ (ih h1)

theorem find_cons_pos (n : String) (b : Args) (l : List Args)
    (hb : argsName b = n) :
    List.find? (fun x => argsName x == n) (b :: l) = some b :=
  List.find?_cons_of_pos _ (by simp [hb])

theorem find_cons_neg (n : String) (b : Args) (l : List Args)
    (hb : ¬ argsName b = n) :
    List.find? (fun x => argsName x == n) (b :: l)
      = List.find? (fun x => argsName x == n) l :=
  List.find?_cons_of_neg _ (by simp [hb])

theorem find_map_replace (r : List Args) (a : Args)
    (h : argsName a ∈ r.map argsName) :
    (r.map (fun b => if argsName b = argsName a then a else b)).find?
      (fun b => argsName b == argsName a) = some a := by
  induction r with
  | nil => simp at h
  | cons b rest ih =>
      by_cases hb : argsName b = argsName a
      · simp only [List.map_cons, if_pos hb]
        exact find_cons_pos _ _ _ rfl
      · simp only [List.map_cons, if_neg hb]
        rw [find_cons_neg _ _ _ hb]
        apply ih
        rw [List.map_cons, List.mem_cons] at h
        rcases h with h1 | h1
        · exact absurd h1.symm hb
        · exact h1

theorem find_append_new (r : List Args) (a : Args)
    (h : argsName a ∉ r.map argsName) :
    ((r ++ [a]).find? (fun b => argsName b == argsName a)) = some a := by
  induction r with
  | nil =>
      rw [List.nil_append]
      exact find_cons_pos _ _ _ rfl
  | cons b rest ih =>
      have hb : ¬ argsName b = argsName a := by
        intro hc
        exact h (by rw [List.map_cons, hc]; exact List.mem_cons_self _ _)
      rw [List.cons_append, find_cons_neg _ _ _ hb]
      exact ih (fun hx => h (by rw [List.map_cons]; exact List.mem_cons_of_mem _ hx))

theorem lookup_insertOrUpdate_self (r : List Args) (a : Args) :
    lookupArgs (argsName a) (insertOrUpdate r a) = some a := by
  by_cases h : argsName a ∈ r.map argsName
  · simp only [insertOrUpdate, if_pos h, lookupArgs]
    exact find_map_replace r a h
  · simp only [insertOrUpdate, if_neg h, lookupArgs]
    exact find_append_new r a h

theorem find_map_replace_ne (r : List Args) (a : Args) (n : String)
    (h : n ≠ argsName a) :
    (r.map (fun b => if argsName b = argsName a then a else b)).find?
        (fun b => argsName b == n)
      = r.find? (fun b => argsName b == n) := by
  induction r with
  | nil => rfl
  | cons b rest ih =>
      by_cases hb : argsName b = argsName a
      · have hna : ¬ argsName a = n := fun hx => h hx.symm
        simp only [List.map_cons, if_pos hb]
        rw [find_cons_neg _ _ _ hna, find_cons_neg _ _ _ (hb ▸ hna)]
        exact ih
      · simp only [List.map_cons, if_neg hb]
        by_cases hbn : argsName b = n
        · rw [find_cons_pos _ _ _ hbn, find_cons_pos _ _ _ hbn]
        · rw [find_cons_neg _ _ _ hbn, find_cons_neg _ _ _ hbn]
          exact ih

theorem find_append_ne (r : List Args) (a : Args) (n : String)
    (h : n ≠ argsName a) :
    ((r ++ [a]).find? (fun b => argsName b == n)) = r.find? (fun b => argsName b == n) := by
  induction r with
  | nil =>
      rw [List.nil_append, find_cons_neg _ _ _ (fun hx => h hx.symm)]
  | cons b rest ih =>
      rw [List.cons_append]
      by_cases hbn : argsName b = n
      · rw [find_cons_pos _ _ _ hbn, find_cons_pos _ _ _ hbn]
      · rw [find_cons_neg _ _ _ hbn, find_cons_neg _ _ _ hbn]
        exact ih

theorem lookup_insertOrUpdate_ne (r : List Args) (a : Args) (n : String)
    (h : n ≠ argsName a) :
    lookupArgs n (insertOrUpdate r a) = lookupArgs n r := by
  by_cases hc : argsName a ∈ r.map argsName
  · simp only [insertOrUpdate, if_pos hc, lookupArgs]
    exact find_map_replace_ne r a n h
  · simp only [insertOrUpdate, if_neg hc, lookupArgs]
    exact find_append_ne r a n h

/-! Projections of each operation, separating the table, registry, log and
error components. -/

namespace Indicators

theorem change_rows (st : State) :
    (change_in_price st).1.table.rows
      = transform (fun r => r.close) setChange diffList st.table.rows := rfl

theorem change_cols (st : State) :
    (change_in_price st).1.table.cols = addCol "change_in_price" st.table.cols := rfl

theorem change_registry (st : State) :
    (change_in_price st).1.registry = insertOrUpdate st.registry .changeArgs := rfl

theorem change_log (st : State) :
    (change_in_price st).1.log = st.log ++ ["change_in_price"] := rfl

theorem change_err (st : State) : (change_in_price st).2 = none := rfl

theorem sma_rows (p : Int) (st : State) (hp : ¬ p < 0) :
    (sma p st).1.table.rows
      = transform (fun r => r.close) setSma (rollingMean p.toNat) st.table.rows := by
  simp [sma, registerArgs, hp]

theorem sma_cols (p : Int) (st : State) (hp : ¬ p < 0) :
    (sma p st).1.table.cols = addCol "sma" st.table.cols := by
  simp [sma, registerArgs, hp]

theorem sma_err_ok (p : Int) (st : State) (hp : ¬ p < 0) : (sma p st).2 = none := by
  simp [sma, registerArgs, hp]

theorem sma_table_bad (p : Int) (st : State) (hp : p < 0) :
    (sma p st).1.table = st.table := by
  simp [sma, registerArgs, hp]

theorem sma_err_bad (p : Int) (st : State) (hp : p < 0) :
    (sma p st).2 = some Err.valueError := by
  simp [sma, registerArgs, hp]

theorem sma_registry (p : Int) (st : State) :
    (sma p st).1.registry = insertOrUpdate st.registry (.smaArgs p) := by
  by_cases hp : p < 0 <;> simp [sma, registerArgs, hp]

theorem sma_log (p : Int) (st : State) :
    (sma p st).1.log = st.log ++ ["sma"] := by
  by_cases hp : p < 0 <;> simp [sma, registerArgs, argsName, hp]

theorem ema_rows (p : Int) (al : ℚ) (st : State) (hp : ¬ p < 1) :
    (ema p al st).1.table.rows
      = transform (fun r => r.close) setEma
          (fun xs => ewm (2 / ((p : ℚ) + 1)) (xs.map RVal.fin)) st.table.rows := by
  simp [ema, registerArgs, hp]

theorem ema_cols (p : Int) (al : ℚ) (st : State) (hp : ¬ p < 1) :
    (ema p al st).1.table.cols = addCol "ema" st.table.cols := by
  simp [ema, registerArgs, hp]

theorem ema_err_ok (p : Int) (al : ℚ) (st : State) (hp : ¬ p < 1) :
    (ema p al st).2 = none := by
  simp [ema, registerArgs, hp]

theorem ema_registry (p : Int) (al : ℚ) (st : State) :
    (ema p al st).1.registry = insertOrUpdate st.registry (.emaArgs p al) := by
  by_cases hp : p < 1 <;> simp [ema, registerArgs, hp]

theorem ema_log (p : Int) (al : ℚ) (st : State) :
    (ema p al st).1.log = st.log ++ ["ema"] := by
  by_cases hp : p < 1 <;> simp [ema, registerArgs, argsName, hp]

theorem rsi_rows (p : Int) (m : String) (st : State) (hp : ¬ p < 1) :
    (rsi p m st).1.table.rows
      = (rsiCells (ewmaRows (2 / ((p : ℚ) + 1)) (upDownRows
          (if "change_in_price" ∈ st.table.cols then st.table.rows
           else transform (fun r => r.close) setChange diffList st.table.rows)))).map
          dropHelperCells := by
  by_cases hc : "change_in_price" ∈ st.table.cols <;>
    simp [rsi, change_in_price, registerArgs, hp, hc]

theorem rsi_rows_bad (p : Int) (m : String) (st : State) (hp : p < 1) :
    (rsi p m st).1.table.rows
      = upDownRows
          (if "change_in_price" ∈ st.table.cols then st.table.rows
           else transform (fun r => r.close) setChange diffList st.table.rows) := by
  by_cases hc : "change_in_price" ∈ st.table.cols <;>
    simp [rsi, change_in_price, registerArgs, hp, hc]

theorem rsi_cols (p : Int) (m : String) (st : State) (hp : ¬ p < 1) :
    (rsi p m st).1.table.cols
      = (addCol "rsi" (addCol "ewma_down" (addCol "ewma_up" (addCol "down_day"
          (addCol "up_day"
            (if "change_in_price" ∈ st.table.cols then st.table.cols
             else addCol "change_in_price" st.table.cols)))))).filter
          (fun c => decide (c ∉ dropLabels)) := by
  by_cases hc : "change_in_price" ∈ st.table.cols <;>
    simp [rsi, change_in_price, registerArgs, hp, hc]

theorem rsi_registry (p : Int) (m : String) (st : State) :
    (rsi p m st).1.registry
      = if "change_in_price" ∈ st.table.cols then
          insertOrUpdate st.registry (.rsiArgs p m)
        else insertOrUpdate (insertOrUpdate st.registry (.rsiArgs p m)) .changeArgs := by
  by_cases hp : p < 1 <;> by_cases hc : "change_in_price" ∈ st.table.cols <;>
    simp [rsi, change_in_price, registerArgs, hp, hc]

theorem rsi_log (p : Int) (m : String) (st : State) :
    (rsi p m st).1.log
      = st.log ++ (if "change_in_price" ∈ st.table.cols then ["rsi"]
                   else ["rsi", "change_in_price"]) := by
  by_cases hp : p < 1 <;> by_cases hc : "change_in_price" ∈ st.table.cols <;>
    simp [rsi, change_in_price, registerArgs, argsName, hp, hc]

theorem rsi_err_ok (p : Int) (m : String) (st : State) (hp : ¬ p < 1) :
    (rsi p m st).2 = none := by
  by_cases hc : "change_in_price" ∈ st.table.cols <;>
    simp [rsi, change_in_price, registerArgs, hp, hc]

theorem ema_table_bad (p : Int) (al : ℚ) (st : State) (hp : p < 1) :
    (ema p al st).1.table = st.table := by
  simp [ema, registerArgs, hp]

theorem refreshGo_cons (a : Args) (rest : List Args) (st : State) :
    refreshGo (a :: rest) st
      = if (runRecord a st).2 = none
        then refreshGo rest (runRecord a st).1
        else runRecord a st := by
  rcases hr : runRecord a st with ⟨st1, e⟩
  cases e <;> simp [refreshGo, hr]

end Indicators

/-! Claim theorems. -/

/-- C1: Replay correctness of refresh: for every table with sma(period=3)
and then ema(period=5) invoked, after appending new rows and calling
refresh(), the sma and ema columns equal those obtained by invoking
sma(period=3) then ema(period=5) once on the full table. -/
theorem replay_correctness_sma_ema (init newRows : List PriceIn) :
    (Indicators.refresh (appendRows newRows
        ((Indicators.ema 5 0 ((Indicators.sma 3 (mkState init)).1)).1))).1.table.rows.map
          (fun r => r.sma)
      = ((Indicators.ema 5 0 ((Indicators.sma 3
          (mkState (init ++ newRows))).1)).1).table.rows.map (fun r => r.sma)
    ∧ (Indicators.refresh (appendRows newRows
        ((Indicators.ema 5 0 ((Indicators.sma 3 (mkState init)).1)).1))).1.table.rows.map
          (fun r => r.ema)
      = ((Indicators.ema 5 0 ((Indicators.sma 3
          (mkState (init ++ newRows))).1)).1).table.rows.map (fun r => r.ema) := by
  have h30 : ¬ (3 : Int) < 0 := by decide
  have h51 : ¬ (5 : Int) < 1 := by decide
  have hreg : (appendRows newRows
      ((Indicators.ema 5 0 ((Indicators.sma 3 (mkState init)).1)).1)).registry
      = [Args.smaArgs 3, Args.emaArgs 5 0] := by
    show ((Indicators.ema 5 0 ((Indicators.sma 3 (mkState init)).1)).1).registry = _
    rw [Indicators.ema_registry, Indicators.sma_registry]
    show insertOrUpdate (insertOrUpdate [] (Args.smaArgs 3)) (Args.emaArgs 5 0) = _
    decide
  have hrefresh : (Indicators.refresh (appendRows newRows
      ((Indicators.ema 5 0 ((Indicators.sma 3 (mkState init)).1)).1))).1
      = (Indicators.ema 5 0 ((Indicators.sma 3 (appendRows newRows
          ((Indicators.ema 5 0 ((Indicators.sma 3 (mkState init)).1)).1))).1)).1 := by
    rw [Indicators.refresh, hreg, Indicators.refreshGo_cons]
    simp only [Indicators.runRecord]
    rw [if_pos (Indicators.sma_err_ok 3 _ h30)]
    rw [Indicators.refreshGo_cons]
    simp only [Indicators.runRecord]
    rw [if_pos (Indicators.ema_err_ok 5 0 _ h51)]
    rfl
  have hsc : (appendRows newRows
      ((Indicators.ema 5 0 ((Indicators.sma 3 (mkState init)).1)).1)).table.rows.map
        (fun r => (r.symbol, r.close))
      = (mkState (init ++ newRows)).table.rows.map (fun r => (r.symbol, r.close)) := by
    show (((Indicators.ema 5 0 ((Indicators.sma 3 (mkState init)).1)).1).table.rows
        ++ newRows.map mkRow).map _ = _
    rw [List.map_append, Indicators.ema_rows 5 0 _ h51, Indicators.sma_rows 3 _ h30]
    rw [transform, transform,
        distribute_map_eq setEma (fun r => (r.symbol, r.close)) (fun r v => rfl),
        distribute_map_eq setSma (fun r => (r.symbol, r.close)) (fun r v => rfl)]
    simp [mkState, List.map_map, Function.comp]
  have hsma : ((Indicators.sma 3 (appendRows newRows
      ((Indicators.ema 5 0 ((Indicators.sma 3 (mkState init)).1)).1))).1.table.rows.map
        (fun r => r.sma))
      = ((Indicators.sma 3 (mkState (init ++ newRows))).1.table.rows.map (fun r => r.sma)) := by
    rw [Indicators.sma_rows 3 _ h30, Indicators.sma_rows 3 _ h30]
    exact transform_close_col_eq setSma (fun r => r.sma) (fun r v => rfl) _ _ _ hsc
  have hsc2 : ((Indicators.sma 3 (appendRows newRows
      ((Indicators.ema 5 0 ((Indicators.sma 3 (mkState init)).1)).1))).1.table.rows.map
        (fun r => (r.symbol, r.close)))
      = ((Indicators.sma 3 (mkState (init ++ newRows))).1.table.rows.map
        (fun r => (r.symbol, r.close))) := by
    rw [Indicators.sma_rows 3 _ h30, Indicators.sma_rows 3 _ h30]
    rw [transform, transform,
        distribute_map_eq setSma (fun r => (r.symbol, r.close)) (fun r v => rfl),
        distribute_map_eq setSma (fun r => (r.symbol, r.close)) (fun r v => rfl)]
    exact hsc
  constructor
  · rw [hrefresh]
    rw [Indicators.ema_rows 5 0 _ h51, Indicators.ema_rows 5 0 _ h51]
    rw [transform, transform,
        distribute_map_eq setEma (fun r => r.sma) (fun r v => rfl),
        distribute_map_eq setEma (fun r => r.sma) (fun r v => rfl)]
    exact hsma
  · rw [hrefresh]
    rw [Indicators.ema_rows 5 0 _ h51, Indicators.ema_rows 5 0 _ h51]
    exact transform_close_col_eq setEma (fun r => r.ema) (fun r v => rfl) _ _ _ hsc2

/-- C2: the code does not compute the single standard RSI formula.  On the
one-symbol table with closes 10, 11, 9 and period 1, the standard formula
gives 100, 100, 0 while the code, applying the 100 - 100/(1+x) transform
a second time to its own output (line 172), yields NaN, 10000/101, 100. -/
theorem rsi_double_application :
    ((Indicators.rsi 1 "wilders" (mkState
        [⟨"A", 0, 10⟩, ⟨"A", 1, 11⟩, ⟨"A", 2, 9⟩])).1.table.rows.map (fun r => r.rsi)
      = [RVal.nan, RVal.fin (10000 / 101), RVal.fin 100])
    ∧ rsiSpecStandard 1 [10, 11, 9] = [RVal.fin 100, RVal.fin 100, RVal.fin 0]
    ∧ ((Indicators.rsi 1 "wilders" (mkState
        [⟨"A", 0, 10⟩, ⟨"A", 1, 11⟩, ⟨"A", 2, 9⟩])).1.table.rows.map (fun r => r.rsi)
      ≠ rsiSpecStandard 1 [10, 11, 9]) := by
  norm_num [Indicators.rsi, Indicators.change_in_price, registerArgs, insertOrUpdate,
    argsName, addCol, mkState, mkRow, transform, distribute, diffList,
    Indicators.upDownRows, Indicators.ewmaRows, Indicators.rsiCells, whereUp, whereDown,
    ewm, ewmGo, rdiv, Indicators.rsiWhere, Indicators.rsiFormula, oneAdd, hundredSub,
    Indicators.dropHelperCells, Indicators.dropLabels, setChange, setUpDay, setDownDay,
    setEwmaUp, setEwmaDown, setRsi, List.filter, rsiSpecStandard]

/-- C3: on the same table the smoothed down-move average is 0 at row 1
while the up average is 1, the relative-strength division is a division
with divisor zero (yielding infinity, not an exception), and the final
rsi cell is 10000/101 rather than the claimed 100. -/
theorem rsi_zero_divisor_reached :
    ((Indicators.ewmaRows (2 / ((1 : ℚ) + 1)) (Indicators.upDownRows
        ((Indicators.change_in_price (mkState
          [⟨"A", 0, 10⟩, ⟨"A", 1, 11⟩, ⟨"A", 2, 9⟩])).1.table.rows))).map
        (fun r => r.ewmaDown)).get? 1 = some (RVal.fin 0)
    ∧ ((Indicators.ewmaRows (2 / ((1 : ℚ) + 1)) (Indicators.upDownRows
        ((Indicators.change_in_price (mkState
          [⟨"A", 0, 10⟩, ⟨"A", 1, 11⟩, ⟨"A", 2, 9⟩])).1.table.rows))).map
        (fun r => r.ewmaUp)).get? 1 = some (RVal.fin 1)
    ∧ rdiv (RVal.fin 1) (RVal.fin 0) = RVal.inf
    ∧ ((Indicators.rsi 1 "wilders" (mkState
        [⟨"A", 0, 10⟩, ⟨"A", 1, 11⟩, ⟨"A", 2, 9⟩])).1.table.rows.map
        (fun r => r.rsi)).get? 1 = some (RVal.fin (10000 / 101)) := by
  norm_num [Indicators.rsi, Indicators.change_in_price, registerArgs, insertOrUpdate,
    argsName, addCol, mkState, mkRow, transform, distribute, diffList,
    Indicators.upDownRows, Indicators.ewmaRows, Indicators.rsiCells, whereUp, whereDown,
    ewm, ewmGo, rdiv, Indicators.rsiWhere, Indicators.rsiFormula, oneAdd, hundredSub,
    Indicators.dropHelperCells, Indicators.dropLabels, setChange, setUpDay, setDownDay,
    setEwmaUp, setEwmaDown, setRsi, List.filter, List.get?]

/-- C4 counterexample: sma(period=0) raises nothing at all: it returns
without error, writes an (all-undefined) sma column, and updates the
registry, so the table is not unchanged and no InvalidParameter error is
reported. -/
theorem sma_zero_succeeds :
    (Indicators.sma 0 (mkState [⟨"A", 0, 10⟩])).2 = none
    ∧ "sma" ∈ (Indicators.sma 0 (mkState [⟨"A", 0, 10⟩])).1.table.cols
    ∧ (Indicators.sma 0 (mkState [⟨"A", 0, 10⟩])).1.table.rows.map (fun r => r.sma)
      = [RVal.nan]
    ∧ (Indicators.sma 0 (mkState [⟨"A", 0, 10⟩])).1.registry = [Args.smaArgs 0]
    ∧ (Indicators.sma 0 (mkState [⟨"A", 0, 10⟩])).1.table ≠ (mkState [⟨"A", 0, 10⟩]).table := by
  norm_num [Indicators.sma, registerArgs, insertOrUpdate, argsName, addCol, mkState,
    mkRow, transform, distribute, rollingMean, setSma, List.filter, Table.mk.injEq]

/-- C4 amended: sma performs no period validation of its own and no
InvalidParameter error exists.  The registry is always updated with the
given period; period 0 succeeds and writes an all-undefined sma column;
a negative period fails with the underlying library's ValueError, leaving
the table unchanged but the registry updated. -/
theorem sma_no_validation (st : State) (p : Int) :
    (Indicators.sma p st).1.registry = insertOrUpdate st.registry (Args.smaArgs p)
    ∧ (p = 0 → (Indicators.sma p st).2 = none
        ∧ (Indicators.sma p st).1.table.rows.map (fun r => r.sma)
          = st.table.rows.map (fun _ => RVal.nan))
    ∧ (p < 0 → (Indicators.sma p st).2 = some Err.valueError
        ∧ (Indicators.sma p st).1.table = st.table) := by
  refine ⟨Indicators.sma_registry p st, ?_, ?_⟩
  · intro hp
    subst hp
    refine ⟨Indicators.sma_err_ok 0 st (by decide), ?_⟩
    rw [Indicators.sma_rows 0 st (by decide), transform]
    apply distribute_nan setSma (fun r => r.sma) (fun r v => rfl)
    intro s v hv
    have hv2 : (∃ x ∈ st.table.rows, x.symbol = s) ∧ v = RVal.nan := by
      simpa [rollingMean] using hv
    exact hv2.2
  · intro hp
    exact ⟨Indicators.sma_err_bad p st hp, Indicators.sma_table_bad p st hp⟩

/-- C4 witness: the amended theorem applied at period -5 on a one-row
table. -/
theorem sma_no_validation_witness :
    (Indicators.sma (-5) (mkState [⟨"A", 0, 10⟩])).2 = some Err.valueError
    ∧ (Indicators.sma (-5) (mkState [⟨"A", 0, 10⟩])).1.table
      = (mkState [⟨"A", 0, 10⟩]).table :=
  (sma_no_validation (mkState [⟨"A", 0, 10⟩]) (-5)).2.2 (by decide)

/-- C5 counterexample: on the one-symbol table with closes 10, 13 and
period 5, the code's ema column is 10, 59/5 (the pandas adjusted
weighted mean) while the recurrence seeded from the first close gives
10, 11. -/
theorem ema_not_recurrence :
    ((Indicators.ema 5 0 (mkState [⟨"A", 0, 10⟩, ⟨"A", 1, 13⟩])).1.table.rows.map
        (fun r => r.ema))
      ≠ (emaRecurrence (2 / ((5 : ℚ) + 1)) [10, 13]).map RVal.fin := by
  norm_num [Indicators.ema, registerArgs, insertOrUpdate, argsName, addCol, mkState,
    mkRow, transform, distribute, ewm, ewmGo, setEma, List.filter,
    emaRecurrence, emaRecGo]

theorem ewmGo_fin (a : ℚ) (xs : List ℚ) (num den : ℚ) :
    ewmGo a num den (xs.map RVal.fin)
      = (List.range xs.length).map (fun i =>
          RVal.fin ((wSumNum a (xs.take (i + 1)) + (1 - a) ^ (i + 1) * num)
            / (wSumDen a (i + 1) + (1 - a) ^ (i + 1) * den))) := by
  induction xs generalizing num den with
  | nil => rfl
  | cons x rest ih =>
      simp only [List.map_cons, ewmGo, List.length_cons]
      rw [ih, List.range_succ_eq_map, List.map_cons, List.map_map]
      congr 1
      · simp only [List.take_succ_cons, List.take_zero, wSumNum, wSumDen, List.length_nil]
        congr 1
        ring
      · apply List.map_congr_left
        intro i hi
        have hi' : i + 1 ≤ rest.length := List.mem_range.mp hi
        simp only [Function.comp, Nat.succ_eq_add_one, List.take_succ_cons, wSumNum,
          wSumDen, List.length_take]
        rw [min_eq_left hi']
        congr 1
        congr 1
        · ring
        · ring

theorem ewm_fin_closed (a : ℚ) (xs : List ℚ) :
    ewm a (xs.map RVal.fin) = emaAdjusted a xs := by
  rw [ewm, ewmGo_fin, emaAdjusted]
  apply List.map_congr_left
  intro i _
  simp

/-- C5 amended: for every table, period of at least one, and symbol group,
ema(period, alpha) (alpha is ignored) computes the ema column per symbol
group in chronological order as the adjusted exponentially weighted mean
with smoothing factor 2/(period+1): position i holds the weighted average
of the first i+1 close prices with weights decaying by 1-a toward the
past; in particular the first value of each group is the group's first
close price. -/
theorem ema_adjusted_weighted_mean (st : State) (p : Int) (al : ℚ) (s : String)
    (hp : 1 ≤ p) :
    ((Indicators.ema p al st).1.table.rows.filter (fun r => r.symbol == s)).map
        (fun r => r.ema)
      = emaAdjusted (2 / ((p : ℚ) + 1))
          ((st.table.rows.filter (fun r => r.symbol == s)).map (fun r => r.close)) := by
  have hp' : ¬ p < 1 := by omega
  rw [Indicators.ema_rows p al st hp', transform, distribute_filter setEma (fun r v => rfl) s]
  rw [map_get_consume setEma (fun r => r.ema) (fun r v => rfl) _ _
    (by rw [ewm, ewmGo_length]; simp)]
  exact ewm_fin_closed _ _

/-- C5 witness: the amended theorem applied to a concrete two-row table at
period 5. -/
theorem ema_adjusted_weighted_mean_witness :
    ((Indicators.ema 5 0 (mkState [⟨"A", 0, 10⟩, ⟨"A", 1, 13⟩])).1.table.rows.filter
        (fun r => r.symbol == "A")).map (fun r => r.ema)
      = emaAdjusted (2 / ((5 : ℚ) + 1))
          (((mkState [⟨"A", 0, 10⟩, ⟨"A", 1, 13⟩]).table.rows.filter
            (fun r => r.symbol == "A")).map (fun r => r.close)) :=
  ema_adjusted_weighted_mean (mkState [⟨"A", 0, 10⟩, ⟨"A", 1, 13⟩]) 5 0 "A" (by decide)

/-- Membership in `addCol`. -/
theorem mem_addCol (x n : String) (cols : List String) :
    x ∈ addCol n cols ↔ x ∈ cols ∨ x = n := by
  by_cases h : n ∈ cols
  · simp only [addCol, if_pos h]
    constructor
    · exact Or.inl
    · rintro (h1 | h1)
      · exact h1
      · exact h1 ▸ h
  · simp [addCol, if_neg h]

/-- C8 counterexample: after rsi runs on a fresh table (computing
change_in_price itself), the change_in_price column does not persist: it
is dropped together with the helper columns. -/
theorem rsi_change_not_persisted :
    "change_in_price" ∉ (Indicators.rsi 1 "wilders"
        (mkState [⟨"A", 0, 10⟩, ⟨"A", 1, 11⟩])).1.table.cols
    ∧ "rsi" ∈ (Indicators.rsi 1 "wilders"
        (mkState [⟨"A", 0, 10⟩, ⟨"A", 1, 11⟩])).1.table.cols := by
  rw [Indicators.rsi_cols 1 "wilders" _ (by decide)]
  refine ⟨?_, ?_⟩ <;>
    simp [List.mem_filter, mem_addCol, Indicators.dropLabels, mkState]

/-- C8 amended: after rsi(period, method) returns with a valid period, the
transient helper columns up_day, down_day, ewma_up, ewma_down are absent
from the table, the change_in_price column is absent as well (it is
dropped, not persisted), and the rsi column is present. -/
theorem rsi_helper_columns_absent (st : State) (p : Int) (m : String) (hp : 1 ≤ p) :
    "up_day" ∉ (Indicators.rsi p m st).1.table.cols
    ∧ "down_day" ∉ (Indicators.rsi p m st).1.table.cols
    ∧ "ewma_up" ∉ (Indicators.rsi p m st).1.table.cols
    ∧ "ewma_down" ∉ (Indicators.rsi p m st).1.table.cols
    ∧ "change_in_price" ∉ (Indicators.rsi p m st).1.table.cols
    ∧ "rsi" ∈ (Indicators.rsi p m st).1.table.cols := by
  have hp' : ¬ p < 1 := by omega
  rw [Indicators.rsi_cols p m st hp']
  refine ⟨?_, ?_, ?_, ?_, ?_, ?_⟩ <;>
    simp [List.mem_filter, mem_addCol, Indicators.dropLabels]

/-- C8 witness: the amended theorem applied to a concrete table at
period 1. -/
theorem rsi_helper_columns_absent_witness :
    "up_day" ∉ (Indicators.rsi 1 "wilders" (mkState [⟨"B", 0, 5⟩])).1.table.cols
    ∧ "rsi" ∈ (Indicators.rsi 1 "wilders" (mkState [⟨"B", 0, 5⟩])).1.table.cols :=
  ⟨(rsi_helper_columns_absent (mkState [⟨"B", 0, 5⟩]) 1 "wilders" (by decide)).1,
   (rsi_helper_columns_absent (mkState [⟨"B", 0, 5⟩]) 1 "wilders" (by decide)).2.2.2.2.2⟩

/-- Replaying a list of records each of which registers exactly its own
name and raises nothing appends exactly those names, in order, to the
log. -/
theorem refreshGo_simple (recs : List Args) (st : State)
    (h : ∀ a ∈ recs, simpleRecord a) :
    (Indicators.refreshGo recs st).1.log = st.log ++ recs.map argsName
    ∧ (Indicators.refreshGo recs st).2 = none := by
  induction recs generalizing st with
  | nil => simp [Indicators.refreshGo]
  | cons a rest ih =>
      have ha := h a (List.mem_cons_self a rest)
      have hrest : ∀ b ∈ rest, simpleRecord b := fun b hb => h b (List.mem_cons_of_mem a hb)
      cases a with
      | changeArgs =>
          rw [Indicators.refreshGo_cons,
              show Indicators.runRecord Args.changeArgs st = Indicators.change_in_price st from rfl,
              if_pos (Indicators.change_err st)]
          obtain ⟨h1, h2⟩ := ih ((Indicators.change_in_price st).1) hrest
          refine ⟨?_, h2⟩
          rw [h1, Indicators.change_log]
          simp [argsName]
      | rsiArgs p m => exact absurd ha (by simp [simpleRecord])
      | smaArgs p =>
          have hp : ¬ p < 0 := by
            have : (0 : Int) ≤ p := ha
            omega
          rw [Indicators.refreshGo_cons,
              show Indicators.runRecord (Args.smaArgs p) st = Indicators.sma p st from rfl,
              if_pos (Indicators.sma_err_ok p st hp)]
          obtain ⟨h1, h2⟩ := ih ((Indicators.sma p st).1) hrest
          refine ⟨?_, h2⟩
          rw [h1, Indicators.sma_log]
          simp [argsName]
      | emaArgs p al =>
          have hp : ¬ p < 1 := by
            have : (1 : Int) ≤ p := ha
            omega
          rw [Indicators.refreshGo_cons,
              show Indicators.runRecord (Args.emaArgs p al) st = Indicators.ema p al st from rfl,
              if_pos (Indicators.ema_err_ok p al st hp)]
          obtain ⟨h1, h2⟩ := ih ((Indicators.ema p al st).1) hrest
          refine ⟨?_, h2⟩
          rw [h1, Indicators.ema_log]
          simp [argsName]

/-- C6: overwriting an existing registry name keeps the name sequence
unchanged (original position retained); registering rsi then sma then rsi
again with new arguments, starting from an empty registry, yields
iteration order rsi, sma with the rsi record holding the new arguments;
and refresh replays records in first-insertion order: for a registry of
records whose replay registers only its own name and cannot raise, the
replay log is exactly the registry's name sequence in order. -/
theorem registration_order_preserved :
    (∀ (r : List Args) (a : Args), argsName a ∈ r.map argsName →
        (insertOrUpdate r a).map argsName = r.map argsName)
    ∧ (∀ st : State, st.registry = [] →
        ((registerArgs (Args.rsiArgs 28 "wilders") (registerArgs (Args.smaArgs 3)
            (registerArgs (Args.rsiArgs 14 "wilders") st))).registry.map argsName
          = ["rsi", "sma"]
        ∧ lookupArgs "rsi" (registerArgs (Args.rsiArgs 28 "wilders")
            (registerArgs (Args.smaArgs 3)
              (registerArgs (Args.rsiArgs 14 "wilders") st))).registry
          = some (Args.rsiArgs 28 "wilders")))
    ∧ (∀ st : State, (∀ a ∈ st.registry, simpleRecord a) →
        (Indicators.refresh st).1.log = st.log ++ st.registry.map argsName
        ∧ (Indicators.refresh st).2 = none) := by
  refine ⟨insertOrUpdate_names, ?_, ?_⟩
  · intro st h0
    simp only [registerArgs, h0]
    constructor
    · decide
    · decide
  · intro st h
    exact refreshGo_simple st.registry st h

/-- C6 witness: each part of the theorem at concrete inputs. -/
theorem registration_order_preserved_witness :
    (insertOrUpdate [Args.rsiArgs 14 "wilders", Args.smaArgs 3]
        (Args.rsiArgs 28 "wilders")).map argsName
      = [Args.rsiArgs 14 "wilders", Args.smaArgs 3].map argsName
    ∧ (registerArgs (Args.rsiArgs 28 "wilders") (registerArgs (Args.smaArgs 3)
        (registerArgs (Args.rsiArgs 14 "wilders") (mkState [])))).registry.map argsName
      = ["rsi", "sma"]
    ∧ (Indicators.refresh
        (State.mk (Table.mk [] []) [Args.smaArgs 2, Args.emaArgs 3 0] [])).1.log
      = ([] : List String) ++ [Args.smaArgs 2, Args.emaArgs 3 0].map argsName := by
  have h := registration_order_preserved
  refine ⟨h.1 _ _ (by decide), (h.2.1 (mkState []) rfl).1, ?_⟩
  have h3 := (h.2.2 (State.mk (Table.mk [] []) [Args.smaArgs 2, Args.emaArgs 3 0] [])
    (by
      intro a ha
      rcases List.mem_cons.mp ha with h1 | h1
      · subst h1
        show (0 : Int) ≤ 2
        decide
      · rcases List.mem_cons.mp h1 with h2 | h2
        · subst h2
          show (1 : Int) ≤ 3
          decide
        · exact absurd h2 (List.not_mem_nil a))).1
  exact h3

/-- Replaying one record that is present in the registry (with unique
names, and change_in_price present whenever rsi is) leaves the registry
unchanged: the replay re-registers, but every write stores a record the
registry already holds at that name. -/
theorem runRecord_preserve (a : Args) (st : State)
    (ha : a ∈ st.registry)
    (hnd : (st.registry.map argsName).Nodup)
    (hch : "rsi" ∈ st.registry.map argsName → Args.changeArgs ∈ st.registry) :
    (Indicators.runRecord a st).1.registry = st.registry
    ∧ ∃ e1, (Indicators.runRecord a st).1.log = st.log ++ e1
        ∧ ∀ n ∈ e1, n ∈ st.registry.map argsName := by
  cases a with
  | changeArgs =>
      refine ⟨?_, ["change_in_price"], Indicators.change_log st, ?_⟩
      · rw [show Indicators.runRecord Args.changeArgs st = Indicators.change_in_price st
            from rfl, Indicators.change_registry]
        exact insertOrUpdate_self _ _ ha hnd
      · intro n hn
        rw [List.mem_singleton] at hn
        subst hn
        exact List.mem_map_of_mem argsName ha
  | smaArgs p =>
      refine ⟨?_, ["sma"], Indicators.sma_log p st, ?_⟩
      · rw [show Indicators.runRecord (Args.smaArgs p) st = Indicators.sma p st from rfl,
            Indicators.sma_registry]
        exact insertOrUpdate_self _ _ ha hnd
      · intro n hn
        rw [List.mem_singleton] at hn
        subst hn
        exact List.mem_map_of_mem argsName ha
  | emaArgs p al =>
      refine ⟨?_, ["ema"], Indicators.ema_log p al st, ?_⟩
      · rw [show Indicators.runRecord (Args.emaArgs p al) st = Indicators.ema p al st
            from rfl, Indicators.ema_registry]
        exact insertOrUpdate_self _ _ ha hnd
      · intro n hn
        rw [List.mem_singleton] at hn
        subst hn
        exact List.mem_map_of_mem argsName ha
  | rsiArgs p m =>
      have hrsi : "rsi" ∈ st.registry.map argsName := List.mem_map_of_mem argsName ha
      constructor
      · rw [show Indicators.runRecord (Args.rsiArgs p m) st = Indicators.rsi p m st
            from rfl, Indicators.rsi_registry]
        by_cases hc : "change_in_price" ∈ st.table.cols
        · rw [if_pos hc]
          exact insertOrUpdate_self _ _ ha hnd
        · rw [if_neg hc, insertOrUpdate_self _ _ ha hnd]
          exact insertOrUpdate_self _ _ (hch hrsi) hnd
      · refine ⟨if "change_in_price" ∈ st.table.cols then ["rsi"]
            else ["rsi", "change_in_price"],
          Indicators.rsi_log p m st, ?_⟩
        intro n hn
        by_cases hc : "change_in_price" ∈ st.table.cols
        · rw [if_pos hc, List.mem_singleton] at hn
          subst hn
          exact hrsi
        · rw [if_neg hc] at hn
          rcases List.mem_cons.mp hn with h1 | h1
          · subst h1
            exact hrsi
          · rw [List.mem_singleton] at h1
            subst h1
            exact List.mem_map_of_mem argsName (hch hrsi)

/-- Replaying any snapshot of records taken from the registry leaves the
registry unchanged and logs only names the registry already holds, even
when a replay raises and aborts the loop. -/
theorem refreshGo_registry_inv (recs : List Args) (st : State)
    (hsub : ∀ a ∈ recs, a ∈ st.registry)
    (hnd : (st.registry.map argsName).Nodup)
    (hch : "rsi" ∈ st.registry.map argsName → Args.changeArgs ∈ st.registry) :
    (Indicators.refreshGo recs st).1.registry = st.registry
    ∧ ∃ extra, (Indicators.refreshGo recs st).1.log = st.log ++ extra
        ∧ ∀ n ∈ extra, n ∈ st.registry.map argsName := by
  induction recs generalizing st with
  | nil => exact ⟨rfl, [], by simp [Indicators.refreshGo], by simp⟩
  | cons a rest ih =>
      have ha : a ∈ st.registry := hsub a (List.mem_cons_self a rest)
      obtain ⟨hreg1, e1, hlog1, hmem1⟩ := runRecord_preserve a st ha hnd hch
      rw [Indicators.refreshGo_cons]
      by_cases he : (Indicators.runRecord a st).2 = none
      · rw [if_pos he]
        obtain ⟨hreg2, extra2, hlog2, hmem2⟩ := ih ((Indicators.runRecord a st).1)
          (by rw [hreg1]; exact fun b hb => hsub b (List.mem_cons_of_mem a hb))
          (by rw [hreg1]; exact hnd)
          (by rw [hreg1]; exact hch)
        refine ⟨by rw [hreg2, hreg1], e1 ++ extra2, ?_, ?_⟩
        · rw [hlog2, hlog1, List.append_assoc]
        · intro n hn
          rcases List.mem_append.mp hn with h1 | h1
          · exact hmem1 n h1
          · rw [hreg1] at hmem2
            exact hmem2 n h1
      · rw [if_neg he]
        exact ⟨hreg1, e1, hlog1, hmem1⟩

/-- C7 counterexample: refresh does perform registry writes.  On the
reachable state obtained by running sma(3) on a one-row table, the
replayed sma re-registers itself, so the registration log grows during
refresh (by the entry sma). -/
theorem refresh_does_reregister :
    (Indicators.refresh ((Indicators.sma 3 (mkState [⟨"A", 0, 10⟩])).1)).1.log
      ≠ ((Indicators.sma 3 (mkState [⟨"A", 0, 10⟩])).1).log := by
  have h1 : ((Indicators.sma 3 (mkState [⟨"A", 0, 10⟩])).1).registry
      = [Args.smaArgs 3] := by
    rw [Indicators.sma_registry]
    decide
  have h2 : ((Indicators.sma 3 (mkState [⟨"A", 0, 10⟩])).1).log = ["sma"] := by
    rw [Indicators.sma_log]
    rfl
  rw [Indicators.refresh, h1, Indicators.refreshGo_cons,
      show Indicators.runRecord (Args.smaArgs 3) ((Indicators.sma 3
        (mkState [⟨"A", 0, 10⟩])).1) = Indicators.sma 3 ((Indicators.sma 3
        (mkState [⟨"A", 0, 10⟩])).1) from rfl,
      if_pos (Indicators.sma_err_ok 3 _ (by decide))]
  show (Indicators.refreshGo [] _).1.log ≠ _
  rw [show ∀ st : State, (Indicators.refreshGo [] st) = (st, none) from fun st => rfl]
  rw [Indicators.sma_log, h2]
  decide

/-- C7 amended: for every state whose registry is reachable (unique names,
and a change_in_price record accompanying any rsi record), refresh leaves
the registry exactly as it was, records included, even if a replay
raises; each replayed indicator does re-register itself (and rsi may
re-register change_in_price), but every registration during refresh
overwrites an existing record with identical content: every name written
during refresh is a name the registry already held, and no new record is
created. -/
theorem refresh_registry_unchanged (st : State) (h : reachableRegistry st.registry) :
    (Indicators.refresh st).1.registry = st.registry
    ∧ ∃ extra, (Indicators.refresh st).1.log = st.log ++ extra
        ∧ ∀ n ∈ extra, n ∈ st.registry.map argsName := by
  obtain ⟨hnd, hr⟩ := h
  exact refreshGo_registry_inv st.registry st (fun a ha => ha) hnd
    (fun hm => changeArgs_of_name_mem _ (hr hm))

/-- C7 witness: the amended theorem on a concrete reachable registry
holding rsi, change_in_price and sma records. -/
theorem refresh_registry_unchanged_witness :
    (Indicators.refresh (State.mk (Table.mk [] [])
        [Args.rsiArgs 14 "wilders", Args.changeArgs, Args.smaArgs 2] [])).1.registry
      = [Args.rsiArgs 14 "wilders", Args.changeArgs, Args.smaArgs 2] :=
  (refresh_registry_unchanged (State.mk (Table.mk [] [])
      [Args.rsiArgs 14 "wilders", Args.changeArgs, Args.smaArgs 2] [])
    (by constructor
        · decide
        · intro h
          decide)).1

/-- C9: symbol isolation.  For any two states whose tables carry the same
derived columns and agree on all rows of symbol s (rows of other symbols
arbitrary), every indicator routine computes identical rows for symbol s:
no value from another symbol's sequence influences the values computed
for s. -/
theorem symbol_isolation (s : String) (st1 st2 : State)
    (hcols : st1.table.cols = st2.table.cols)
    (hrows : st1.table.rows.filter (fun r => r.symbol == s)
      = st2.table.rows.filter (fun r => r.symbol == s)) :
    ((Indicators.change_in_price st1).1.table.rows.filter (fun r => r.symbol == s)
      = (Indicators.change_in_price st2).1.table.rows.filter (fun r => r.symbol == s))
    ∧ (∀ p : Int,
        (Indicators.sma p st1).1.table.rows.filter (fun r => r.symbol == s)
          = (Indicators.sma p st2).1.table.rows.filter (fun r => r.symbol == s))
    ∧ (∀ (p : Int) (al : ℚ),
        (Indicators.ema p al st1).1.table.rows.filter (fun r => r.symbol == s)
          = (Indicators.ema p al st2).1.table.rows.filter (fun r => r.symbol == s))
    ∧ (∀ (p : Int) (m : String),
        (Indicators.rsi p m st1).1.table.rows.filter (fun r => r.symbol == s)
          = (Indicators.rsi p m st2).1.table.rows.filter (fun r => r.symbol == s)) := by
  refine ⟨?_, ?_, ?_, ?_⟩
  · rw [Indicators.change_rows, Indicators.change_rows]
    exact transform_filter_eq _ setChange (fun r v => rfl) diffList s _ _ hrows
  · intro p
    by_cases hp : p < 0
    · rw [Indicators.sma_table_bad p st1 hp, Indicators.sma_table_bad p st2 hp]
      exact hrows
    · rw [Indicators.sma_rows p st1 hp, Indicators.sma_rows p st2 hp]
      exact transform_filter_eq _ setSma (fun r v => rfl) (rollingMean p.toNat) s _ _ hrows
  · intro p al
    by_cases hp : p < 1
    · rw [Indicators.ema_table_bad p al st1 hp, Indicators.ema_table_bad p al st2 hp]
      exact hrows
    · rw [Indicators.ema_rows p al st1 hp, Indicators.ema_rows p al st2 hp]
      exact transform_filter_eq _ setEma (fun r v => rfl) _ s _ _ hrows
  · intro p m
    have hbase : (if "change_in_price" ∈ st1.table.cols then st1.table.rows
        else transform (fun r => r.close) setChange diffList st1.table.rows).filter
          (fun r => r.symbol == s)
        = (if "change_in_price" ∈ st2.table.cols then st2.table.rows
        else transform (fun r => r.close) setChange diffList st2.table.rows).filter
          (fun r => r.symbol == s) := by
      rw [hcols]
      by_cases hc : "change_in_price" ∈ st2.table.cols
      · rw [if_pos hc, if_pos hc]
        exact hrows
      · rw [if_neg hc, if_neg hc]
        exact transform_filter_eq _ setChange (fun r v => rfl) diffList s _ _ hrows
    have hud : (Indicators.upDownRows (if "change_in_price" ∈ st1.table.cols
          then st1.table.rows
          else transform (fun r => r.close) setChange diffList st1.table.rows)).filter
          (fun r => r.symbol == s)
        = (Indicators.upDownRows (if "change_in_price" ∈ st2.table.cols
          then st2.table.rows
          else transform (fun r => r.close) setChange diffList st2.table.rows)).filter
          (fun r => r.symbol == s) := by
      rw [Indicators.upDownRows, Indicators.upDownRows]
      exact transform_filter_eq _ setDownDay (fun r v => rfl) _ s _ _
        (transform_filter_eq _ setUpDay (fun r v => rfl) _ s _ _ hbase)
    by_cases hp : p < 1
    · rw [Indicators.rsi_rows_bad p m st1 hp, Indicators.rsi_rows_bad p m st2 hp]
      exact hud
    · rw [Indicators.rsi_rows p m st1 hp, Indicators.rsi_rows p m st2 hp]
      have hew := transform_filter_eq (fun r => r.downDay) setEwmaDown (fun r v => rfl)
        (ewm (2 / ((p : ℚ) + 1))) s _ _
        (transform_filter_eq (fun r => r.upDay) setEwmaUp (fun r v => rfl)
          (ewm (2 / ((p : ℚ) + 1))) s _ _ hud)
      have hcells : (Indicators.rsiCells (Indicators.ewmaRows (2 / ((p : ℚ) + 1))
            (Indicators.upDownRows (if "change_in_price" ∈ st1.table.cols
              then st1.table.rows
              else transform (fun r => r.close) setChange diffList
                st1.table.rows)))).filter (fun r => r.symbol == s)
          = (Indicators.rsiCells (Indicators.ewmaRows (2 / ((p : ℚ) + 1))
            (Indicators.upDownRows (if "change_in_price" ∈ st2.table.cols
              then st2.table.rows
              else transform (fun r => r.close) setChange diffList
                st2.table.rows)))).filter (fun r => r.symbol == s) := by
        rw [Indicators.rsiCells, Indicators.rsiCells,
            filter_map_comm (fun r => setRsi r (Indicators.rsiWhere
              (rdiv r.ewmaUp r.ewmaDown))) (fun r => rfl) s,
            filter_map_comm (fun r => setRsi r (Indicators.rsiWhere
              (rdiv r.ewmaUp r.ewmaDown))) (fun r => rfl) s]
        simp only [Indicators.ewmaRows]
        rw [hew]
      rw [filter_map_comm Indicators.dropHelperCells (fun r => rfl) s,
          filter_map_comm Indicators.dropHelperCells (fun r => rfl) s, hcells]

/-- C9 witness: the theorem applied to two concrete tables that agree on
symbol B but differ on symbol A. -/
theorem symbol_isolation_witness :
    ((Indicators.rsi 2 "wilders" (mkState
        [⟨"A", 0, 50⟩, ⟨"B", 0, 10⟩, ⟨"A", 1, 7⟩, ⟨"B", 1, 11⟩])).1.table.rows.filter
        (fun r => r.symbol == "B"))
      = ((Indicators.rsi 2 "wilders" (mkState
        [⟨"A", 0, 3⟩, ⟨"B", 0, 10⟩, ⟨"A", 1, 999⟩, ⟨"B", 1, 11⟩])).1.table.rows.filter
        (fun r => r.symbol == "B")) :=
  (symbol_isolation "B"
    (mkState [⟨"A", 0, 50⟩, ⟨"B", 0, 10⟩, ⟨"A", 1, 7⟩, ⟨"B", 1, 11⟩])
    (mkState [⟨"A", 0, 3⟩, ⟨"B", 0, 10⟩, ⟨"A", 1, 999⟩, ⟨"B", 1, 11⟩])
    rfl (by simp [mkState, mkRow, List.filter])).2.2.2 2 "wilders"

/-- C10: every indicator routine overwrites its registry record before
touching the table, so the registry holds the new arguments even when
the computation then fails, and a refresh after a failed sma(p) with
negative p replays the failing call and fails again. -/
theorem registry_updated_before_computation :
    (∀ st : State, (Indicators.change_in_price st).1.registry
        = insertOrUpdate st.registry Args.changeArgs)
    ∧ (∀ (st : State) (p : Int), (Indicators.sma p st).1.registry
        = insertOrUpdate st.registry (Args.smaArgs p))
    ∧ (∀ (st : State) (p : Int) (al : ℚ), (Indicators.ema p al st).1.registry
        = insertOrUpdate st.registry (Args.emaArgs p al))
    ∧ (∀ (st : State) (p : Int) (m : String),
        lookupArgs "rsi" (Indicators.rsi p m st).1.registry = some (Args.rsiArgs p m))
    ∧ (∀ (st : State) (p : Int), st.registry = [] → p < 0 →
        (Indicators.sma p st).2 = some Err.valueError
        ∧ (Indicators.sma p st).1.registry = [Args.smaArgs p]
        ∧ (Indicators.refresh (Indicators.sma p st).1).2 = some Err.valueError
        ∧ (Indicators.refresh (Indicators.sma p st).1).1.log
          = (Indicators.sma p st).1.log ++ ["sma"]) := by
  refine ⟨Indicators.change_registry, fun st p => Indicators.sma_registry p st,
    fun st p al => Indicators.ema_registry p al st, ?_, ?_⟩
  · intro st p m
    rw [Indicators.rsi_registry]
    by_cases hc : "change_in_price" ∈ st.table.cols
    · rw [if_pos hc]
      exact lookup_insertOrUpdate_self st.registry (Args.rsiArgs p m)
    · rw [if_neg hc, lookup_insertOrUpdate_ne _ _ _ (by decide)]
      exact lookup_insertOrUpdate_self st.registry (Args.rsiArgs p m)
  · intro st p h0 hneg
    have hreg : (Indicators.sma p st).1.registry = [Args.smaArgs p] := by
      rw [Indicators.sma_registry, h0]
      simp [insertOrUpdate]
    refine ⟨Indicators.sma_err_bad p st hneg, hreg, ?_, ?_⟩
    · rw [Indicators.refresh, hreg, Indicators.refreshGo_cons,
          show Indicators.runRecord (Args.smaArgs p) ((Indicators.sma p st).1)
            = Indicators.sma p ((Indicators.sma p st).1) from rfl,
          if_neg (by rw [Indicators.sma_err_bad p _ hneg]; exact fun h => nomatch h)]
      exact Indicators.sma_err_bad p _ hneg
    · rw [Indicators.refresh, hreg, Indicators.refreshGo_cons,
          show Indicators.runRecord (Args.smaArgs p) ((Indicators.sma p st).1)
            = Indicators.sma p ((Indicators.sma p st).1) from rfl,
          if_neg (by rw [Indicators.sma_err_bad p _ hneg]; exact fun h => nomatch h)]
      exact Indicators.sma_log p _

/-- C10 witness: the theorem applied at a concrete failing invocation
sma(-2) from a fresh state. -/
theorem registry_updated_before_computation_witness :
    (Indicators.sma (-2) (mkState [])).2 = some Err.valueError
    ∧ (Indicators.sma (-2) (mkState [])).1.registry = [Args.smaArgs (-2)]
    ∧ (Indicators.refresh (Indicators.sma (-2) (mkState [])).1).2
      = some Err.valueError :=
  ⟨(registry_updated_before_computation.2.2.2.2 (mkState []) (-2) rfl (by decide)).1,
   (registry_updated_before_computation.2.2.2.2 (mkState []) (-2) rfl (by decide)).2.1,
   (registry_updated_before_computation.2.2.2.2 (mkState []) (-2) rfl (by decide)).2.2.1⟩

end PyRobot
